import Mathlib

/-!
Verification development for the mqtt-logger capture pipeline
(src/mqtt-logger/src/main.rs).

The development shallowly embeds the pieces of the program that the
specification talks about:

* the base64 payload codec (the call base64::encode at main.rs:135 and the
  standard base64 decoding that the specification pairs with it);
* the persisted record structure MqttMessage (main.rs:18-25) and its
  serde_json single-line serialization (main.rs:138);
* the exclusive-creation file open (main.rs:80-86);
* the capture loop of main (main.rs:114-158), modelled as a step function
  over an explicit run state, driven by a list of inbound events together
  with the per-iteration environment (the observed value of the shutdown
  flag, the clock reading, and the success of the fallible calls).

Machine integers are modelled as Nat with explicit bounds where they
matter; the f64 running byte counter of the source is modelled as Nat
(every increment in the source is a small integer, for which f64 addition
is exact); the f64 capture timestamp is modelled at nanosecond precision
(the source converts a Duration to seconds with as_secs_f64; IEEE-754
rendering is abstracted by exact decimal rendering of the same value,
which the structural claims do not distinguish).
-/

/-! ### Base64 codec (standard alphabet, padded), as used by base64::encode -/

def b64AlphabetChars : List Char :=
  "ABCDEFGHIJKLMNOPQRSTUVWXYZabcdefghijklmnopqrstuvwxyz0123456789+/".data

theorem b64AlphabetChars_length : b64AlphabetChars.length = 64 := by decide

/-- Character for a 6-bit group.  All indices produced by the encoder are
below 64, so reducing the index modulo 64 is the identity on every index
the program can produce. -/
def b64Char (n : Nat) : Char :=
  b64AlphabetChars.get ⟨n % 64, by rw [b64AlphabetChars_length]; exact Nat.mod_lt n (by decide)⟩

def b64IndexAux (c : Char) : List Char → Option Nat
  | [] => none
  | a :: rest => if a = c then some 0 else (b64IndexAux c rest).map (· + 1)

/-- Position of a character in the standard base64 alphabet (none for the
padding character and for every character outside the alphabet). -/
def b64Index (c : Char) : Option Nat := b64IndexAux c b64AlphabetChars

/-- Standard base64 encoding of a byte sequence, three bytes to four
characters, with trailing padding, exactly as base64::encode produces. -/
def b64EncodeChunks : List Nat → List Char
  | a :: b :: c :: rest =>
      b64Char ((a * 65536 + b * 256 + c) / 262144)
        :: b64Char ((a * 65536 + b * 256 + c) / 4096 % 64)
        :: b64Char ((a * 65536 + b * 256 + c) / 64 % 64)
        :: b64Char ((a * 65536 + b * 256 + c) % 64)
        :: b64EncodeChunks rest
  | [a, b] =>
      [b64Char (a / 4), b64Char (a % 4 * 16 + b / 16), b64Char (b % 16 * 4), '=']
  | [a] =>
      [b64Char (a / 4), b64Char (a % 4 * 16), '=', '=']
  | [] => []

/-- Standard base64 decoding, four characters to three bytes, accepting
padding only at the end of the input. -/
def b64DecodeChunks : List Char → Option (List Nat)
  | [] => some []
  | c1 :: c2 :: c3 :: c4 :: rest =>
      match b64Index c1, b64Index c2 with
      | some i1, some i2 =>
          if c3 = '=' then
            if c4 = '=' then
              if rest = [] then some [i1 * 4 + i2 / 16] else none
            else none
          else
            match b64Index c3 with
            | some i3 =>
                if c4 = '=' then
                  if rest = [] then some [i1 * 4 + i2 / 16, i2 % 16 * 16 + i3 / 4]
                  else none
                else
                  match b64Index c4 with
                  | some i4 =>
                      match b64DecodeChunks rest with
                      | some ds =>
                          some ((i1 * 262144 + i2 * 4096 + i3 * 64 + i4) / 65536
                            :: (i1 * 262144 + i2 * 4096 + i3 * 64 + i4) / 256 % 256
                            :: (i1 * 262144 + i2 * 4096 + i3 * 64 + i4) % 256
                            :: ds)
                      | none => none
                  | none => none
            | none => none
      | _, _ => none
  | _ => none

theorem b64Index_b64Char_fin : ∀ i : Fin 64, b64Index (b64Char i.val) = some i.val := by decide

theorem b64Index_b64Char {k : Nat} (hk : k < 64) : b64Index (b64Char k) = some k :=
  b64Index_b64Char_fin ⟨k, hk⟩

theorem b64Char_ne_pad_fin : ∀ i : Fin 64, b64Char i.val ≠ '=' := by decide

theorem b64Char_ne_pad {k : Nat} (hk : k < 64) : b64Char k ≠ '=' :=
  b64Char_ne_pad_fin ⟨k, hk⟩

theorem b64_roundtrip : ∀ P : List Nat, (∀ b ∈ P, b < 256) →
    b64DecodeChunks (b64EncodeChunks P) = some P
  | [], _ => rfl
  | [a], h => by
      have ha : a < 256 := h a (by simp)
      simp only [b64EncodeChunks, b64DecodeChunks,
        b64Index_b64Char (show a / 4 < 64 by omega),
        b64Index_b64Char (show a % 4 * 16 < 64 by omega)]
      simp only [if_pos rfl, reduceIte, Option.some.injEq, List.cons.injEq, and_true]
      omega
  | [a, b], h => by
      have ha : a < 256 := h a (by simp)
      have hb : b < 256 := h b (by simp)
      simp only [b64EncodeChunks, b64DecodeChunks,
        b64Index_b64Char (show a / 4 < 64 by omega),
        b64Index_b64Char (show a % 4 * 16 + b / 16 < 64 by omega),
        b64Index_b64Char (show b % 16 * 4 < 64 by omega),
        if_neg (b64Char_ne_pad (show b % 16 * 4 < 64 by omega))]
      simp only [if_pos rfl, reduceIte, Option.some.injEq, List.cons.injEq, and_true]
      omega
  | a :: b :: c :: rest, h => by
      have ha : a < 256 := h a (by simp)
      have hb : b < 256 := h b (by simp)
      have hc : c < 256 := h c (by simp)
      have IH := b64_roundtrip rest (fun x hx => h x (by simp [hx]))
      simp only [b64EncodeChunks, b64DecodeChunks,
        b64Index_b64Char (show (a * 65536 + b * 256 + c) / 262144 < 64 by omega),
        b64Index_b64Char (show (a * 65536 + b * 256 + c) / 4096 % 64 < 64 by omega),
        b64Index_b64Char (show (a * 65536 + b * 256 + c) / 64 % 64 < 64 by omega),
        b64Index_b64Char (show (a * 65536 + b * 256 + c) % 64 < 64 by omega),
        if_neg (b64Char_ne_pad (show (a * 65536 + b * 256 + c) / 64 % 64 < 64 by omega)),
        if_neg (b64Char_ne_pad (show (a * 65536 + b * 256 + c) % 64 < 64 by omega))]
      rw [IH]
      simp only [Option.some.injEq, List.cons.injEq, and_true]
      omega

/-! ### Decimal and hexadecimal digit rendering

The source serializes the record with serde_json (main.rs:138).  The
integer components of that output are modelled by an exact decimal
renderer; the fuel argument of natCharsCore is always at least the number
of digits (natChars passes the number itself), so the fuel never runs
out. -/

def decDigits : List Char := "0123456789".data

theorem decDigits_length : decDigits.length = 10 := by decide

def digitChar (d : Nat) : Char :=
  decDigits.get ⟨d % 10, by rw [decDigits_length]; exact Nat.mod_lt d (by decide)⟩

def hexDigits : List Char := "0123456789abcdef".data

theorem hexDigits_length : hexDigits.length = 16 := by decide

def hexDigit (d : Nat) : Char :=
  hexDigits.get ⟨d % 16, by rw [hexDigits_length]; exact Nat.mod_lt d (by decide)⟩

def natCharsCore : Nat → Nat → List Char → List Char
  | 0, _, acc => acc
  | fuel + 1, n, acc =>
      if n = 0 then acc else natCharsCore fuel (n / 10) (digitChar (n % 10) :: acc)

/-- Decimal rendering of a natural number, most significant digit first. -/
def natChars (n : Nat) : List Char :=
  if n = 0 then ['0'] else natCharsCore n n []

theorem natCharsCore_mem : ∀ (fuel n : Nat) (acc : List Char) (c : Char),
    c ∈ natCharsCore fuel n acc → c ∈ acc ∨ c ∈ decDigits
  | 0, _, _, _, h => Or.inl h
  | fuel + 1, n, acc, c, h => by
      by_cases hn : n = 0
      · simp only [natCharsCore, if_pos hn] at h
        exact Or.inl h
      · simp only [natCharsCore, if_neg hn] at h
        rcases natCharsCore_mem fuel (n / 10) _ c h with h1 | h1
        · rcases List.mem_cons.mp h1 with h2 | h2
          · subst h2
            exact Or.inr (List.get_mem _ _ _)
          · exact Or.inl h2
        · exact Or.inr h1

theorem natChars_mem {n : Nat} {c : Char} (h : c ∈ natChars n) : c ∈ decDigits := by
  unfold natChars at h
  by_cases hn : n = 0
  · rw [if_pos hn] at h
    simp at h
    subst h
    decide
  · rw [if_neg hn] at h
    rcases natCharsCore_mem n n [] c h with h1 | h1
    · simp at h1
    · exact h1

theorem natCharsCore_append : ∀ (fuel n : Nat) (acc : List Char),
    ∃ ds, natCharsCore fuel n acc = ds ++ acc
  | 0, _, acc => ⟨[], rfl⟩
  | fuel + 1, n, acc => by
      by_cases hn : n = 0
      · exact ⟨[], by simp [natCharsCore, hn]⟩
      · rcases natCharsCore_append fuel (n / 10) (digitChar (n % 10) :: acc) with ⟨ds, hds⟩
        exact ⟨ds ++ [digitChar (n % 10)], by simp [natCharsCore, hn, hds]⟩

theorem natChars_ne_nil (n : Nat) : natChars n ≠ [] := by
  unfold natChars
  by_cases hn : n = 0
  · simp [hn]
  · rw [if_neg hn]
    rcases n with _ | m
    · exact absurd rfl hn
    · show natCharsCore (m + 1) (m + 1) [] ≠ []
      simp only [natCharsCore, if_neg hn]
      rcases natCharsCore_append m ((m + 1) / 10) [digitChar ((m + 1) % 10)] with ⟨ds, hds⟩
      rw [hds]
      simp

/-! ### Timestamp rendering

The source captures SystemTime::now, takes its duration since the Unix
epoch and stores as_secs_f64 (main.rs:128-131).  The timestamp is modelled
in whole nanoseconds and rendered as seconds with a nine-digit fractional
part: an exact decimal stand-in for the f64 seconds value, carrying the
same information. -/

def padLeftZeros (k : Nat) (ds : List Char) : List Char :=
  List.replicate (k - ds.length) '0' ++ ds

def timeChars (nanos : Nat) : List Char :=
  natChars (nanos / 1000000000) ++ '.' :: padLeftZeros 9 (natChars (nanos % 1000000000))

theorem timeChars_mem {nanos : Nat} {c : Char} (h : c ∈ timeChars nanos) :
    c ∈ decDigits ∨ c = '.' := by
  unfold timeChars padLeftZeros at h
  rcases List.mem_append.mp h with h1 | h1
  · exact Or.inl (natChars_mem h1)
  · rcases List.mem_cons.mp h1 with h2 | h2
    · exact Or.inr h2
    · rcases List.mem_append.mp h2 with h3 | h3
      · rw [List.eq_of_mem_replicate h3]
        left
        decide
      · exact Or.inl (natChars_mem h3)

theorem timeChars_ne_nil (nanos : Nat) : timeChars nanos ≠ [] := by
  unfold timeChars
  intro h
  exact natChars_ne_nil _ (List.append_eq_nil.mp h).1

/-! ### JSON string escaping, as serde_json performs it -/

def escapeChar (c : Char) : List Char :=
  if c = '"' then ['\\', '"']
  else if c = '\\' then ['\\', '\\']
  else if c = '\x08' then ['\\', 'b']
  else if c = '\x09' then ['\\', 't']
  else if c = '\x0a' then ['\\', 'n']
  else if c = '\x0c' then ['\\', 'f']
  else if c = '\x0d' then ['\\', 'r']
  else if c.toNat < 32 then ['\\', 'u', '0', '0', hexDigit (c.toNat / 16), hexDigit (c.toNat % 16)]
  else [c]

def escapeList : List Char → List Char
  | [] => []
  | c :: cs => escapeChar c ++ escapeList cs

/-- A JSON string token: opening quote, escaped contents, closing quote. -/
def jsonStringChars (s : String) : List Char :=
  '"' :: (escapeList s.data ++ ['"'])

theorem hexDigit_ne_nl (d : Nat) : hexDigit d ≠ '\n' := by
  have hmem : hexDigit d ∈ hexDigits := List.get_mem _ _ _
  have hall : ∀ c ∈ hexDigits, ¬ c = '\n' := by decide
  exact hall _ hmem

theorem escapeChar_no_nl (c : Char) : '\n' ∉ escapeChar c := by
  unfold escapeChar
  split_ifs with h1 h2 h3 h4 h5 h6 h7 h8
  · decide
  · decide
  · decide
  · decide
  · decide
  · decide
  · decide
  · intro hmem
    simp only [List.mem_cons, List.not_mem_nil, or_false] at hmem
    rcases hmem with h | h | h | h | h | h
    · exact absurd h.symm (by decide)
    · exact absurd h.symm (by decide)
    · exact absurd h.symm (by decide)
    · exact absurd h.symm (by decide)
    · exact hexDigit_ne_nl _ h.symm
    · exact hexDigit_ne_nl _ h.symm
  · intro hmem
    simp only [List.mem_cons, List.not_mem_nil, or_false] at hmem
    subst hmem
    exact h8 (by decide)

theorem escapeList_no_nl : ∀ cs : List Char, '\n' ∉ escapeList cs
  | [] => by simp [escapeList]
  | c :: cs => by
      simp only [escapeList, List.mem_append]
      intro h
      rcases h with h | h
      · exact escapeChar_no_nl c h
      · exact escapeList_no_nl cs h

theorem jsonStringChars_no_nl (s : String) : '\n' ∉ jsonStringChars s := by
  unfold jsonStringChars
  intro h
  rcases List.mem_cons.mp h with h1 | h1
  · exact absurd h1 (by decide)
  · rcases List.mem_append.mp h1 with h2 | h2
    · exact escapeList_no_nl _ h2
    · simp at h2

/-! ### The persisted record (struct MqttMessage, main.rs:18-25)

The source stores time as f64 seconds; the model keeps the duration in
whole nanoseconds (the information as_secs_f64 is computed from).  qos is
the u8 value the source obtains from the rumqttc QoS enum. -/

structure MqttMessage where
  time : Nat
  qos : Nat
  retain : Bool
  topic : String
  msg_b64 : String
deriving DecidableEq, Repr

/-- Delivery-quality levels of rumqttc, with their u8 values. -/
inductive QoS
  | atMostOnce
  | atLeastOnce
  | exactlyOnce
deriving DecidableEq, Repr

def QoS.toU8 : QoS → Nat
  | .atMostOnce => 0
  | .atLeastOnce => 1
  | .exactlyOnce => 2

/-- Envelope construction for one inbound publish (main.rs:127-136):
capture timestamp, qos as u8, retain flag, topic as delivered, payload
base64-encoded. -/
def mkMqttMessage (timeNanos : Nat) (topic : String) (payload : List Nat)
    (q : QoS) (retain : Bool) : MqttMessage :=
  { time := timeNanos
    qos := q.toU8
    retain := retain
    topic := topic
    msg_b64 := String.mk (b64EncodeChunks payload) }

/-! ### serde_json serialization of the record (main.rs:138)

serde_json renders a derived struct as one object with the fields in
declaration order; the shape below is exactly that output for
MqttMessage. -/

def recordLineShape (t q r s m : List Char) : List Char :=
  "\x7b\"time\":".data ++ t ++ ",\"qos\":".data ++ q ++ ",\"retain\":".data ++ r
    ++ ",\"topic\":".data ++ s ++ ",\"msg_b64\":".data ++ m ++ ['\x7d']

def serializeRecordChars (msg : MqttMessage) : List Char :=
  recordLineShape (timeChars msg.time) (natChars msg.qos)
    (if msg.retain then "true".data else "false".data)
    (jsonStringChars msg.topic) (jsonStringChars msg.msg_b64)

/-- The serializer the capture loop actually runs: serde_json::to_string
on the record.  For this struct serialization always succeeds, hence the
total function wrapped in some. -/
def serJson (msg : MqttMessage) : Option String :=
  some (String.mk (serializeRecordChars msg))

/-- UTF-8 byte length of a character sequence; the model of str::len on
the serialized record. -/
def utf8Len : List Char → Nat
  | [] => 0
  | c :: cs => c.utf8Size + utf8Len cs

/-! ### Well-formedness of a persisted line (claim C8) -/

/-- One persisted line is well formed when it is a single JSON object with
exactly the five required keys in order: a numeric time token, a qos of 0,
1 or 2, a boolean retain, string tokens for topic and msg_b64, the msg_b64
contents drawn from the standard base64 alphabet plus padding, and no
newline anywhere in the line. -/
def wellFormedRecordLine (l : List Char) : Prop :=
  ∃ t q r s m,
    l = recordLineShape t q r s m
    ∧ t ≠ [] ∧ (∀ c ∈ t, c ∈ decDigits ∨ c = '.')
    ∧ (q = ['0'] ∨ q = ['1'] ∨ q = ['2'])
    ∧ (r = "true".data ∨ r = "false".data)
    ∧ (∃ inner, s = '"' :: (inner ++ ['"']))
    ∧ (∃ bs, m = '"' :: (bs ++ ['"']) ∧ ∀ c ∈ bs, c ∈ b64AlphabetChars ∨ c = '=')
    ∧ '\n' ∉ l

theorem b64Char_mem_alphabet (n : Nat) : b64Char n ∈ b64AlphabetChars :=
  List.get_mem _ _ _

theorem b64EncodeChunks_mem : ∀ (P : List Nat) (c : Char), c ∈ b64EncodeChunks P →
    c ∈ b64AlphabetChars ∨ c = '='
  | [], _, h => by simp [b64EncodeChunks] at h
  | [a], c, h => by
      simp only [b64EncodeChunks, List.mem_cons, List.not_mem_nil, or_false] at h
      rcases h with h | h | h | h
      · exact Or.inl (h ▸ b64Char_mem_alphabet _)
      · exact Or.inl (h ▸ b64Char_mem_alphabet _)
      · exact Or.inr h
      · exact Or.inr h
  | [a, b], c, h => by
      simp only [b64EncodeChunks, List.mem_cons, List.not_mem_nil, or_false] at h
      rcases h with h | h | h | h
      · exact Or.inl (h ▸ b64Char_mem_alphabet _)
      · exact Or.inl (h ▸ b64Char_mem_alphabet _)
      · exact Or.inl (h ▸ b64Char_mem_alphabet _)
      · exact Or.inr h
  | a :: b :: d :: rest, c, h => by
      simp only [b64EncodeChunks, List.mem_cons] at h
      rcases h with h | h | h | h | h
      · exact Or.inl (h ▸ b64Char_mem_alphabet _)
      · exact Or.inl (h ▸ b64Char_mem_alphabet _)
      · exact Or.inl (h ▸ b64Char_mem_alphabet _)
      · exact Or.inl (h ▸ b64Char_mem_alphabet _)
      · exact b64EncodeChunks_mem rest c h

theorem escapeChar_of_plain {c : Char} (hq : c ≠ '"') (hb : c ≠ '\\') (hc : ¬ c.toNat < 32) :
    escapeChar c = [c] := by
  unfold escapeChar
  rw [if_neg hq, if_neg hb]
  rw [if_neg, if_neg, if_neg, if_neg, if_neg, if_neg hc]
  · intro h; exact hc (h ▸ (by decide))
  · intro h; exact hc (h ▸ (by decide))
  · intro h; exact hc (h ▸ (by decide))
  · intro h; exact hc (h ▸ (by decide))
  · intro h; exact hc (h ▸ (by decide))

theorem escapeList_of_plain : ∀ cs : List Char,
    (∀ c ∈ cs, c ≠ '"' ∧ c ≠ '\\' ∧ ¬ c.toNat < 32) → escapeList cs = cs
  | [], _ => rfl
  | c :: cs, h => by
      have hc := h c (by simp)
      simp only [escapeList, escapeChar_of_plain hc.1 hc.2.1 hc.2.2, List.cons_append,
        List.nil_append, List.cons.injEq, true_and]
      exact escapeList_of_plain cs (fun x hx => h x (by simp [hx]))

theorem b64_alphabet_plain : ∀ c, c ∈ b64AlphabetChars ∨ c = '=' →
    c ≠ '"' ∧ c ≠ '\\' ∧ ¬ c.toNat < 32 := by
  intro c h
  rcases h with h | h
  · revert h
    have : ∀ c ∈ b64AlphabetChars, c ≠ '"' ∧ c ≠ '\\' ∧ ¬ c.toNat < 32 := by decide
    exact this c
  · subst h
    refine ⟨by decide, by decide, by decide⟩

theorem escapeList_b64 (P : List Nat) :
    escapeList (b64EncodeChunks P) = b64EncodeChunks P :=
  escapeList_of_plain _ (fun c hc => b64_alphabet_plain c (b64EncodeChunks_mem P c hc))

theorem qos_chars (q : QoS) :
    natChars q.toU8 = ['0'] ∨ natChars q.toU8 = ['1'] ∨ natChars q.toU8 = ['2'] := by
  cases q
  · exact Or.inl (by decide)
  · exact Or.inr (Or.inl (by decide))
  · exact Or.inr (Or.inr (by decide))

theorem noNl_append {a b : List Char} (ha : '\n' ∉ a) (hb : '\n' ∉ b) : '\n' ∉ a ++ b := by
  intro h
  rcases List.mem_append.mp h with h1 | h1
  · exact ha h1
  · exact hb h1

theorem timeChars_no_nl (nanos : Nat) : '\n' ∉ timeChars nanos := by
  intro h
  rcases timeChars_mem h with h1 | h1
  · exact absurd h1 (by decide)
  · exact absurd h1 (by decide)

theorem natChars_no_nl (n : Nat) : '\n' ∉ natChars n := by
  intro h
  exact absurd (natChars_mem h) (by decide)

theorem serializeRecordChars_no_nl (msg : MqttMessage) : '\n' ∉ serializeRecordChars msg := by
  have hR : '\n' ∉ (if msg.retain then "true".data else "false".data) := by
    by_cases hr : msg.retain
    · rw [if_pos hr]; decide
    · rw [if_neg hr]; decide
  unfold serializeRecordChars recordLineShape
  exact noNl_append (noNl_append (noNl_append (noNl_append (noNl_append (noNl_append
    (noNl_append (noNl_append (noNl_append (noNl_append (by decide) (timeChars_no_nl _))
      (by decide)) (natChars_no_nl _)) (by decide)) hR) (by decide))
      (jsonStringChars_no_nl _)) (by decide)) (jsonStringChars_no_nl _)) (by decide)

theorem wellFormed_serializeRecord (timeNanos : Nat) (topic : String) (payload : List Nat)
    (q : QoS) (retain : Bool) :
    wellFormedRecordLine (serializeRecordChars (mkMqttMessage timeNanos topic payload q retain)) := by
  refine ⟨timeChars timeNanos, natChars q.toU8,
    (if retain then "true".data else "false".data),
    jsonStringChars topic, jsonStringChars (String.mk (b64EncodeChunks payload)),
    rfl, timeChars_ne_nil _, fun c hc => timeChars_mem hc, qos_chars q, ?_, ?_, ?_, ?_⟩
  · by_cases hr : retain
    · rw [if_pos hr]; exact Or.inl rfl
    · rw [if_neg hr]; exact Or.inr rfl
  · exact ⟨escapeList topic.data, rfl⟩
  · refine ⟨escapeList (b64EncodeChunks payload), rfl, ?_⟩
    rw [escapeList_b64]
    exact fun c hc => b64EncodeChunks_mem payload c hc
  · exact serializeRecordChars_no_nl _

/-! ### Events, per-iteration environment, actions, run state

The capture loop (main.rs:114-158) is embedded as a function over a list
of inbound notifications.  Each notification is paired with the
environment of that iteration: the value the atomic shutdown flag load
returns (main.rs:118), the clock reading (main.rs:128), and whether the
two fallible calls of the iteration body - writeln to the sink
(main.rs:147) and the re-subscription (main.rs:152) - succeed.  Failure of
either call is an unwrap panic in the source; Rust unwinding still runs
the drop of the auto_finish encoder wrapper (main.rs:87), which the
top-level runner mqttLoggerRun models by appending the finalize action on
every exit path. -/

inductive LogLevel
  | trace
  | debug
  | info
  | warn
  | err
deriving DecidableEq, Repr

inductive TraceAction
  | log (lvl : LogLevel)
  | progressEmit (count : Nat) (bytes : Nat)
  | progressFinish
  | sinkAppend (line : List Char)
  | resubscribe
  | finalize
deriving DecidableEq, Repr

inductive MqttEvent
  | publish (topic : String) (payload : List Nat) (q : QoS) (retain : Bool)
  | disconnect
  | other
deriving DecidableEq, Repr

structure StepEnv where
  running : Bool
  timeNanos : Int
  appendOk : Bool
  resubOk : Bool
deriving DecidableEq, Repr

inductive ExitReason
  | endOfStream
  | shutdown
  | clockPanic
  | appendPanic
  | resubscribePanic
deriving DecidableEq, Repr

structure RunState where
  count : Nat
  bytesWritten : Nat
  lines : List (List Char)
  trace : List TraceAction
deriving DecidableEq, Repr

def initialState : RunState := { count := 0, bytesWritten := 0, lines := [], trace := [] }

/-- Envelope construction guarded by the clock: duration_since(UNIX_EPOCH)
fails exactly when the clock reads before the epoch, and the source
unwraps that result (main.rs:128-131). -/
def envelopeOfPublish (timeNanos : Int) (topic : String) (payload : List Nat)
    (q : QoS) (retain : Bool) : Option MqttMessage :=
  if timeNanos < 0 then none
  else some (mkMqttMessage timeNanos.toNat topic payload q retain)

/-- One iteration body after the shutdown check and the trace-level log:
the match on the notification (main.rs:125-155).  Returns the successor
state and, when the iteration panics, the exit reason. -/
def handleEvent (ser : MqttMessage → Option String) (st : RunState) (ev : MqttEvent)
    (env : StepEnv) : RunState × Option ExitReason :=
  match ev with
  | .publish topic payload q retain =>
      match envelopeOfPublish env.timeNanos topic payload q retain with
      | none => (st, some ExitReason.clockPanic)
      | some msg =>
          match ser msg with
          | some s =>
              if env.appendOk then
                ({ count := st.count + 1
                   bytesWritten := st.bytesWritten + (utf8Len s.data + 2)
                   lines := st.lines ++ [s.data ++ ['\n']]
                   trace := st.trace
                     ++ [TraceAction.progressEmit (st.count + 1) (st.bytesWritten + (utf8Len s.data + 2)),
                         TraceAction.sinkAppend (s.data ++ ['\n'])] }, none)
              else
                ({ st with
                   count := st.count + 1
                   bytesWritten := st.bytesWritten + (utf8Len s.data + 2)
                   trace := st.trace
                     ++ [TraceAction.progressEmit (st.count + 1) (st.bytesWritten + (utf8Len s.data + 2))] },
                 some ExitReason.appendPanic)
          | none => (st, none)
  | .disconnect =>
      if env.resubOk then
        ({ st with trace := st.trace ++ [TraceAction.log LogLevel.debug, TraceAction.resubscribe] }, none)
      else
        ({ st with trace := st.trace ++ [TraceAction.log LogLevel.debug] },
         some ExitReason.resubscribePanic)
  | .other => (st, none)

/-- The for loop over the notification stream (main.rs:117-156): each
iteration first observes the shutdown flag and breaks when it is lowered
(finishing the progress spinner), otherwise logs the notification at
trace level and handles it. -/
def captureLoop (ser : MqttMessage → Option String) :
    List (MqttEvent × StepEnv) → RunState → RunState × ExitReason
  | [], st => (st, ExitReason.endOfStream)
  | (ev, env) :: rest, st =>
      if env.running = false then
        ({ st with trace := st.trace ++ [TraceAction.progressFinish] }, ExitReason.shutdown)
      else
        match handleEvent ser { st with trace := st.trace ++ [TraceAction.log LogLevel.trace] } ev env with
        | (st1, none) => captureLoop ser rest st1
        | (st1, some r) => (st1, r)

/-- A whole run: the loop, then the scoped finalize of the zstd
auto_finish wrapper (main.rs:87), which runs exactly once on every exit
path, normal, shutdown or panic. -/
def mqttLoggerRun (ser : MqttMessage → Option String) (events : List (MqttEvent × StepEnv)) :
    RunState × ExitReason :=
  match captureLoop ser events initialState with
  | (st, r) => ({ st with trace := st.trace ++ [TraceAction.finalize] }, r)

/-- Modelled from the spec: the loop as section 4.4 and claim C2 describe
it, with the shutdown flag checked between the completion of one event
processing and the blocking wait for the next, so that an event already
received is always processed before a transition to draining.  Used only
to compare against captureLoop, which is the embedding of the source. -/
def specPlacedLoop (ser : MqttMessage → Option String) :
    List (MqttEvent × StepEnv) → RunState → RunState × ExitReason
  | [], st => (st, ExitReason.endOfStream)
  | (ev, env) :: rest, st =>
      match handleEvent ser { st with trace := st.trace ++ [TraceAction.log LogLevel.trace] } ev env with
      | (st1, none) =>
          if env.running = false then
            ({ st1 with trace := st1.trace ++ [TraceAction.progressFinish] }, ExitReason.shutdown)
          else specPlacedLoop ser rest st1
      | (st1, some r) => (st1, r)

/-- Modelled from the spec: whole run with the spec placement of the
shutdown check; comparison definition for claim C2 only. -/
def specPlacedRun (ser : MqttMessage → Option String) (events : List (MqttEvent × StepEnv)) :
    RunState × ExitReason :=
  match specPlacedLoop ser events initialState with
  | (st, r) => ({ st with trace := st.trace ++ [TraceAction.finalize] }, r)

/-- Occurrences of one action in a trace. -/
def countA (a : TraceAction) : List TraceAction → Nat
  | [] => 0
  | b :: l => (if b = a then 1 else 0) + countA a l

theorem countA_append (a : TraceAction) : ∀ l1 l2 : List TraceAction,
    countA a (l1 ++ l2) = countA a l1 + countA a l2
  | [], l2 => by simp [countA]
  | b :: l1, l2 => by
      simp only [List.cons_append, countA, List.append_eq]
      rw [countA_append a l1 l2]
      omega

/-- Total uncompressed bytes of the persisted lines; the model of what the
run actually hands to the sink. -/
def fileBytes : List (List Char) → Nat
  | [] => 0
  | l :: ls => utf8Len l + fileBytes ls

/-- Decoding entry point for the stored base64 text. -/
def b64DecodeString (s : String) : Option (List Nat) :=
  b64DecodeChunks s.data

/-! ### The exclusive-creation open (main.rs:80-86)

OpenOptions::new().write(true).create_new(true).open(path) creates the
file exclusively: it fails with an already-exists error when the path
holds a file, leaving the file system untouched, and otherwise creates an
empty file at the path.  The file system is modelled as an association
list from paths to byte contents. -/

inductive OpenResult
  | ok
  | alreadyExistsError
deriving DecidableEq, Repr

def fsLookup : List (String × List Nat) → String → Option (List Nat)
  | [], _ => none
  | (p, c) :: rest, q => if p = q then some c else fsLookup rest q

def createNewFile (fs : List (String × List Nat)) (path : String) :
    List (String × List Nat) × OpenResult :=
  match fsLookup fs path with
  | some _ => (fs, OpenResult.alreadyExistsError)
  | none => ((path, []) :: fs, OpenResult.ok)

/-! ### Trace and line bookkeeping lemmas for the loop -/

theorem handleEvent_trace_finalize (ser : MqttMessage → Option String) (st : RunState)
    (ev : MqttEvent) (env : StepEnv) :
    countA TraceAction.finalize ((handleEvent ser st ev env).1).trace
      = countA TraceAction.finalize st.trace := by
  cases ev with
  | publish topic payload q retain =>
      simp only [handleEvent]
      rcases henv : envelopeOfPublish env.timeNanos topic payload q retain with _ | msg
      · simp [henv]
      · rcases hs : ser msg with _ | s
        · simp [henv, hs]
        · by_cases ha : env.appendOk
          · simp [henv, hs, ha, countA_append, countA]
          · simp [henv, hs, ha, countA_append, countA]
  | disconnect =>
      by_cases hr : env.resubOk
      · simp [handleEvent, hr, countA_append, countA]
      · simp [handleEvent, hr, countA_append, countA]
  | other => rfl

theorem captureLoop_trace_finalize (ser : MqttMessage → Option String) :
    ∀ (events : List (MqttEvent × StepEnv)) (st : RunState),
    countA TraceAction.finalize ((captureLoop ser events st).1).trace
      = countA TraceAction.finalize st.trace
  | [], st => rfl
  | (ev, env) :: rest, st => by
      simp only [captureLoop]
      by_cases hr : env.running = false
      · rw [if_pos hr]
        simp [countA_append, countA]
      · rw [if_neg hr]
        rcases hh : handleEvent ser { st with trace := st.trace ++ [TraceAction.log LogLevel.trace] } ev env
          with ⟨st1, r⟩
        have hkeep := handleEvent_trace_finalize ser
          { st with trace := st.trace ++ [TraceAction.log LogLevel.trace] } ev env
        rw [hh] at hkeep
        simp [countA_append, countA] at hkeep
        cases r with
        | none =>
            simp only [hh]
            rw [captureLoop_trace_finalize ser rest st1, hkeep]
        | some r0 =>
            simp only [hh]
            rw [hkeep]

theorem captureRun_finalize_count (ser : MqttMessage → Option String)
    (events : List (MqttEvent × StepEnv)) :
    countA TraceAction.finalize ((mqttLoggerRun ser events).1).trace = 1 := by
  unfold mqttLoggerRun
  rcases h : captureLoop ser events initialState with ⟨st, r⟩
  have hc := captureLoop_trace_finalize ser events initialState
  rw [h] at hc
  simp only [initialState, countA] at hc
  simp only [countA_append, hc, countA, reduceIte]

/-- A line the capture loop can persist: the serde_json serialization of
an envelope built from some publish, plus the newline that writeln
appends. -/
def capturedLine (l : List Char) : Prop :=
  ∃ timeNanos topic payload q retain,
    l = serializeRecordChars (mkMqttMessage timeNanos topic payload q retain) ++ ['\n']

theorem handleEvent_lines_captured (st : RunState) (ev : MqttEvent) (env : StepEnv)
    (hst : ∀ l ∈ st.lines, capturedLine l) :
    ∀ l ∈ ((handleEvent serJson st ev env).1).lines, capturedLine l := by
  cases ev with
  | publish topic payload q retain =>
      simp only [handleEvent]
      rcases henv : envelopeOfPublish env.timeNanos topic payload q retain with _ | msg
      · exact hst
      · simp only [serJson]
        by_cases ha : env.appendOk
        · rw [if_pos ha]
          intro l hl
          simp only [List.mem_append, List.mem_singleton] at hl
          rcases hl with hl | hl
          · exact hst l hl
          · subst hl
            unfold envelopeOfPublish at henv
            by_cases ht : env.timeNanos < 0
            · rw [if_pos ht] at henv
              exact absurd henv (by simp)
            · rw [if_neg ht] at henv
              simp only [Option.some.injEq] at henv
              exact ⟨env.timeNanos.toNat, topic, payload, q, retain, by rw [henv]⟩
        · rw [if_neg ha]
          exact hst
  | disconnect =>
      by_cases hr : env.resubOk
      · simp only [handleEvent, if_pos hr]
        exact hst
      · simp only [handleEvent, if_neg hr]
        exact hst
  | other => exact hst

theorem captureLoop_lines_captured :
    ∀ (events : List (MqttEvent × StepEnv)) (st : RunState),
    (∀ l ∈ st.lines, capturedLine l) →
    ∀ l ∈ ((captureLoop serJson events st).1).lines, capturedLine l
  | [], st, hst => hst
  | (ev, env) :: rest, st, hst => by
      simp only [captureLoop]
      by_cases hr : env.running = false
      · rw [if_pos hr]
        exact hst
      · rw [if_neg hr]
        rcases hh : handleEvent serJson { st with trace := st.trace ++ [TraceAction.log LogLevel.trace] } ev env
          with ⟨st1, r⟩
        have hkeep := handleEvent_lines_captured
          { st with trace := st.trace ++ [TraceAction.log LogLevel.trace] } ev env hst
        rw [hh] at hkeep
        cases r with
        | none =>
            simp only [hh]
            exact captureLoop_lines_captured rest st1 hkeep
        | some r0 =>
            simp only [hh]
            exact hkeep

/-! ### Claim theorems -/

/-- C3: on every exit path of the capture loop - normal end of the event
stream, shutdown signal, or a failure during append or event processing -
the finalize of the sink (flushing the compressor trailer, flushing the
buffer and closing the file, performed by the scoped auto_finish wrapper)
is invoked exactly once.  The statement quantifies over every serializer
behaviour and every event list, including iterations whose append or
re-subscription fails and iterations with a pre-epoch clock, which are the
panicking exits of the source. -/
theorem mqtt_C3_finalize_exactly_once (ser : MqttMessage → Option String)
    (events : List (MqttEvent × StepEnv)) :
    countA TraceAction.finalize ((mqttLoggerRun ser events).1).trace = 1 :=
  captureRun_finalize_count ser events

/-- C8: every persisted record is one newline-free JSON object line with
exactly the five required keys in declaration order - time (a decimal
numeric token), qos (0, 1 or 2), retain (true or false), topic (a JSON
string token) and msg_b64 (a JSON string token over the standard base64
alphabet plus padding, with no line wrapping) - followed by exactly one
newline terminator. -/
theorem mqtt_C8_persisted_line_wellformed (events : List (MqttEvent × StepEnv))
    (l : List Char) (hl : l ∈ ((mqttLoggerRun serJson events).1).lines) :
    ∃ timeNanos topic payload q retain,
      l = serializeRecordChars (mkMqttMessage timeNanos topic payload q retain) ++ ['\n']
      ∧ wellFormedRecordLine (serializeRecordChars (mkMqttMessage timeNanos topic payload q retain)) := by
  have hcap : capturedLine l := by
    unfold mqttLoggerRun at hl
    rcases h : captureLoop serJson events initialState with ⟨st, r⟩
    rw [h] at hl
    simp only at hl
    have := captureLoop_lines_captured events initialState (by intro x hx; simp [initialState] at hx)
    rw [h] at this
    exact this l hl
  rcases hcap with ⟨tN, topic, payload, q, retain, hline⟩
  exact ⟨tN, topic, payload, q, retain, hline, wellFormed_serializeRecord tN topic payload q retain⟩

theorem mqtt_C8_witness :
    (serializeRecordChars (mkMqttMessage 0 "a" [] QoS.atMostOnce false) ++ ['\n'])
      ∈ ((mqttLoggerRun serJson
          [(MqttEvent.publish "a" [] QoS.atMostOnce false,
            { running := true, timeNanos := 0, appendOk := true, resubOk := true })]).1).lines
    ∧ ∃ timeNanos topic payload q retain,
        serializeRecordChars (mkMqttMessage 0 "a" [] QoS.atMostOnce false) ++ ['\n']
          = serializeRecordChars (mkMqttMessage timeNanos topic payload q retain) ++ ['\n']
        ∧ wellFormedRecordLine (serializeRecordChars (mkMqttMessage timeNanos topic payload q retain)) :=
  ⟨by decide,
   mqtt_C8_persisted_line_wellformed
     [(MqttEvent.publish "a" [] QoS.atMostOnce false,
       { running := true, timeNanos := 0, appendOk := true, resubOk := true })]
     (serializeRecordChars (mkMqttMessage 0 "a" [] QoS.atMostOnce false) ++ ['\n'])
     (by decide)⟩

/-- C4: decoding the base64 text stored in the msg_b64 field of the
envelope built for a payload P yields exactly P, for every byte sequence
P. -/
theorem mqtt_C4_msg_b64_roundtrip (timeNanos : Nat) (topic : String) (payload : List Nat)
    (q : QoS) (retain : Bool) (hbytes : ∀ b ∈ payload, b < 256) :
    b64DecodeString (mkMqttMessage timeNanos topic payload q retain).msg_b64 = some payload := by
  unfold b64DecodeString mkMqttMessage
  exact b64_roundtrip payload hbytes

theorem mqtt_C4_witness :
    (∀ b ∈ [34, 48, 46, 50, 46, 49, 53, 34], b < 256)
    ∧ b64DecodeString
        (mkMqttMessage 1611137748032579700 "gateway/165640a7e023861a/nodeversion"
          [34, 48, 46, 50, 46, 49, 53, 34] QoS.atMostOnce true).msg_b64
        = some [34, 48, 46, 50, 46, 49, 53, 34] :=
  ⟨by decide, mqtt_C4_msg_b64_roundtrip 1611137748032579700 "gateway/165640a7e023861a/nodeversion"
    [34, 48, 46, 50, 46, 49, 53, 34] QoS.atMostOnce true (by decide)⟩

/-- C10: envelope construction never fails when the clock reads at or
after the Unix epoch, and the unwrapped duration_since computation is the
only thing that can make it fail: for a clock before the epoch it returns
none (the unwrap panic of the source), for a clock at or after the epoch
it returns an envelope. -/
theorem mqtt_C10_envelope_clock (timeNanos : Int) (topic : String) (payload : List Nat)
    (q : QoS) (retain : Bool) :
    (0 ≤ timeNanos → envelopeOfPublish timeNanos topic payload q retain
        = some (mkMqttMessage timeNanos.toNat topic payload q retain))
    ∧ (timeNanos < 0 → envelopeOfPublish timeNanos topic payload q retain = none) := by
  constructor
  · intro h
    unfold envelopeOfPublish
    rw [if_neg (by omega)]
  · intro h
    unfold envelopeOfPublish
    rw [if_pos h]

theorem mqtt_C10_witness :
    envelopeOfPublish 0 "a" [] QoS.atMostOnce false
        = some (mkMqttMessage (Int.toNat 0) "a" [] QoS.atMostOnce false)
    ∧ envelopeOfPublish (-1) "a" [] QoS.atMostOnce false = none :=
  ⟨(mqtt_C10_envelope_clock 0 "a" [] QoS.atMostOnce false).1 (by decide),
   (mqtt_C10_envelope_clock (-1) "a" [] QoS.atMostOnce false).2 (by decide)⟩

/-- C6: opening the sink at a path that already holds a file fails with an
already-exists error and leaves the file system - in particular the
existing file - unmodified; opening at a path that holds no file succeeds
and creates a new empty file there. -/
theorem mqtt_C6_create_new_exclusive (fs : List (String × List Nat)) (path : String) :
    ((∃ c, fsLookup fs path = some c) →
        createNewFile fs path = (fs, OpenResult.alreadyExistsError))
    ∧ (fsLookup fs path = none →
        createNewFile fs path = ((path, []) :: fs, OpenResult.ok)
        ∧ fsLookup ((path, []) :: fs) path = some []) := by
  constructor
  · rintro ⟨c, hc⟩
    unfold createNewFile
    rw [hc]
  · intro h
    unfold createNewFile
    rw [h]
    exact ⟨rfl, by simp [fsLookup]⟩

theorem mqtt_C6_witness :
    createNewFile [("capture.json.zst", [1, 2, 3])] "capture.json.zst"
        = ([("capture.json.zst", [1, 2, 3])], OpenResult.alreadyExistsError)
    ∧ (createNewFile [("capture.json.zst", [1, 2, 3])] "fresh.json.zst"
        = (("fresh.json.zst", []) :: [("capture.json.zst", [1, 2, 3])], OpenResult.ok)
      ∧ fsLookup (("fresh.json.zst", []) :: [("capture.json.zst", [1, 2, 3])]) "fresh.json.zst"
        = some []) :=
  ⟨(mqtt_C6_create_new_exclusive [("capture.json.zst", [1, 2, 3])] "capture.json.zst").1
      ⟨[1, 2, 3], by decide⟩,
   (mqtt_C6_create_new_exclusive [("capture.json.zst", [1, 2, 3])] "fresh.json.zst").2 (by decide)⟩

/-- C1 (code bug evidence): at a single appended record the message
counter is 1 as claimed, but the reported byte counter is the serialized
length plus two, while the bytes actually handed to the sink are the
serialized length plus the one-byte newline that writeln appends; the
counter therefore over-reports the claimed sum (serialized length plus
line terminator) by one per record.  The source increments with
serialized.len() + 2 under the comment that the 2 stands for the newline
(main.rs:140), yet writeln writes a single newline byte (main.rs:147). -/
theorem mqtt_C1_bytes_counter_overreports :
    ((mqttLoggerRun serJson [(MqttEvent.publish "a" [] QoS.atMostOnce false,
        { running := true, timeNanos := 0, appendOk := true, resubOk := true })]).1).count = 1
    ∧ ((mqttLoggerRun serJson [(MqttEvent.publish "a" [] QoS.atMostOnce false,
        { running := true, timeNanos := 0, appendOk := true, resubOk := true })]).1).bytesWritten
      = utf8Len (serializeRecordChars (mkMqttMessage 0 "a" [] QoS.atMostOnce false)) + 2
    ∧ fileBytes ((mqttLoggerRun serJson [(MqttEvent.publish "a" [] QoS.atMostOnce false,
        { running := true, timeNanos := 0, appendOk := true, resubOk := true })]).1).lines
      = utf8Len (serializeRecordChars (mkMqttMessage 0 "a" [] QoS.atMostOnce false)) + 1
    ∧ ((mqttLoggerRun serJson [(MqttEvent.publish "a" [] QoS.atMostOnce false,
        { running := true, timeNanos := 0, appendOk := true, resubOk := true })]).1).bytesWritten
      ≠ fileBytes ((mqttLoggerRun serJson [(MqttEvent.publish "a" [] QoS.atMostOnce false,
        { running := true, timeNanos := 0, appendOk := true, resubOk := true })]).1).lines := by
  decide

/-- C2 (amended): the shutdown flag is checked once per loop iteration,
after the blocking wait for an event returns and before that event is
processed; once the flag is observed set, the event in hand is discarded,
no further record is appended to the sink (the loop returns with its state
unchanged apart from finishing the progress spinner), and the sink is
finalized exactly once. -/
theorem mqtt_C2_shutdown_halts_and_finalizes :
    (∀ (ser : MqttMessage → Option String) (ev : MqttEvent) (env : StepEnv)
        (rest : List (MqttEvent × StepEnv)) (st : RunState), env.running = false →
        captureLoop ser ((ev, env) :: rest) st
          = ({ st with trace := st.trace ++ [TraceAction.progressFinish] }, ExitReason.shutdown))
    ∧ (∀ (ser : MqttMessage → Option String) (events : List (MqttEvent × StepEnv)),
        countA TraceAction.finalize ((mqttLoggerRun ser events).1).trace = 1) := by
  constructor
  · intro ser ev env rest st h
    simp [captureLoop, h]
  · exact captureRun_finalize_count

theorem mqtt_C2_witness :
    captureLoop serJson [(MqttEvent.other,
        { running := false, timeNanos := 0, appendOk := true, resubOk := true })] initialState
      = ({ initialState with trace := initialState.trace ++ [TraceAction.progressFinish] },
         ExitReason.shutdown)
    ∧ countA TraceAction.finalize ((mqttLoggerRun serJson []).1).trace = 1 :=
  ⟨mqtt_C2_shutdown_halts_and_finalizes.1 serJson MqttEvent.other
      { running := false, timeNanos := 0, appendOk := true, resubOk := true } [] initialState rfl,
   mqtt_C2_shutdown_halts_and_finalizes.2 serJson []⟩

/-- C2 counterexample: in the source the flag is checked after the
blocking wait has returned, not between the completion of one event
processing and that wait; distinguishing run: with the flag already
lowered when the first publish arrives, the source appends nothing (the
in-hand event is discarded), whereas a loop with the check placed as the
claim states it - after processing, before the next wait - would have
appended that record. -/
theorem mqtt_C2_counterexample :
    ((mqttLoggerRun serJson [(MqttEvent.publish "a" [] QoS.atMostOnce false,
        { running := false, timeNanos := 0, appendOk := true, resubOk := true })]).1).lines = []
    ∧ ((specPlacedRun serJson [(MqttEvent.publish "a" [] QoS.atMostOnce false,
        { running := false, timeNanos := 0, appendOk := true, resubOk := true })]).1).lines
      = [serializeRecordChars (mkMqttMessage 0 "a" [] QoS.atMostOnce false) ++ ['\n']]
    ∧ ((mqttLoggerRun serJson [(MqttEvent.publish "a" [] QoS.atMostOnce false,
        { running := false, timeNanos := 0, appendOk := true, resubOk := true })]).1).lines
      ≠ ((specPlacedRun serJson [(MqttEvent.publish "a" [] QoS.atMostOnce false,
        { running := false, timeNanos := 0, appendOk := true, resubOk := true })]).1).lines := by
  decide

/-- C5 (amended): an inbound publish whose envelope fails to serialize is
skipped silently: the record is dropped, the message and byte counters are
not incremented, no line is appended, capture continues with the next
event, and the only reported diagnostic of the iteration is the
trace-level notification log - no warning is emitted. -/
theorem mqtt_C5_serialization_failure_skips (ser : MqttMessage → Option String)
    (topic : String) (payload : List Nat) (q : QoS) (retain : Bool) (env : StepEnv)
    (rest : List (MqttEvent × StepEnv)) (st : RunState)
    (hrun : env.running = true) (hclock : ¬ env.timeNanos < 0)
    (hser : ser (mkMqttMessage env.timeNanos.toNat topic payload q retain) = none) :
    captureLoop ser ((MqttEvent.publish topic payload q retain, env) :: rest) st
      = captureLoop ser rest { st with trace := st.trace ++ [TraceAction.log LogLevel.trace] } := by
  simp only [captureLoop]
  rw [if_neg (by simp [hrun])]
  simp only [handleEvent, envelopeOfPublish, if_neg hclock, hser]

theorem mqtt_C5_witness :
    ¬ ((0 : Int) < 0)
    ∧ captureLoop (fun _ => none) [(MqttEvent.publish "a" [] QoS.atMostOnce false,
        { running := true, timeNanos := 0, appendOk := true, resubOk := true })] initialState
      = captureLoop (fun _ => none) []
          { initialState with trace := initialState.trace ++ [TraceAction.log LogLevel.trace] } :=
  ⟨by decide,
   mqtt_C5_serialization_failure_skips (fun _ => none) "a" [] QoS.atMostOnce false
     { running := true, timeNanos := 0, appendOk := true, resubOk := true }
     [] initialState rfl (by decide) rfl⟩

/-- C5 counterexample: the claim also asserts that a warning is reported;
in the source the failing serialization branch is an if-let that silently
falls through (main.rs:138-148), so a run whose only publish fails to
serialize emits no warning-level log at all, while indeed skipping the
record, leaving the counters untouched and continuing. -/
theorem mqtt_C5_counterexample :
    TraceAction.log LogLevel.warn ∉ ((mqttLoggerRun (fun _ => none)
        [(MqttEvent.publish "a" [] QoS.atMostOnce false,
          { running := true, timeNanos := 0, appendOk := true, resubOk := true })]).1).trace
    ∧ ((mqttLoggerRun (fun _ => none) [(MqttEvent.publish "a" [] QoS.atMostOnce false,
        { running := true, timeNanos := 0, appendOk := true, resubOk := true })]).1).count = 0
    ∧ ((mqttLoggerRun (fun _ => none) [(MqttEvent.publish "a" [] QoS.atMostOnce false,
        { running := true, timeNanos := 0, appendOk := true, resubOk := true })]).1).lines = []
    ∧ (mqttLoggerRun (fun _ => none) [(MqttEvent.publish "a" [] QoS.atMostOnce false,
        { running := true, timeNanos := 0, appendOk := true, resubOk := true })]).2
      = ExitReason.endOfStream := by
  decide

/-- C7: for the event sequence publish A, disconnect, publish B (under a
raised-is-not-lowered shutdown flag, a post-epoch clock and a healthy sink
and session), the run persists exactly the records of A and B in order,
invokes the wildcard re-subscription exactly once, terminates normally,
and the disconnect notification changes neither the message counter nor
the byte counter. -/
theorem mqtt_C7_disconnect_transparency (tA tB tD : Nat)
    (topicA : String) (payloadA : List Nat) (qA : QoS) (rA : Bool)
    (topicB : String) (payloadB : List Nat) (qB : QoS) (rB : Bool) :
    ((mqttLoggerRun serJson
        [(MqttEvent.publish topicA payloadA qA rA,
          { running := true, timeNanos := (tA : Int), appendOk := true, resubOk := true }),
         (MqttEvent.disconnect,
          { running := true, timeNanos := (tD : Int), appendOk := true, resubOk := true }),
         (MqttEvent.publish topicB payloadB qB rB,
          { running := true, timeNanos := (tB : Int), appendOk := true, resubOk := true })]).1).lines
      = [serializeRecordChars (mkMqttMessage tA topicA payloadA qA rA) ++ ['\n'],
         serializeRecordChars (mkMqttMessage tB topicB payloadB qB rB) ++ ['\n']]
    ∧ countA TraceAction.resubscribe ((mqttLoggerRun serJson
        [(MqttEvent.publish topicA payloadA qA rA,
          { running := true, timeNanos := (tA : Int), appendOk := true, resubOk := true }),
         (MqttEvent.disconnect,
          { running := true, timeNanos := (tD : Int), appendOk := true, resubOk := true }),
         (MqttEvent.publish topicB payloadB qB rB,
          { running := true, timeNanos := (tB : Int), appendOk := true, resubOk := true })]).1).trace = 1
    ∧ (mqttLoggerRun serJson
        [(MqttEvent.publish topicA payloadA qA rA,
          { running := true, timeNanos := (tA : Int), appendOk := true, resubOk := true }),
         (MqttEvent.disconnect,
          { running := true, timeNanos := (tD : Int), appendOk := true, resubOk := true }),
         (MqttEvent.publish topicB payloadB qB rB,
          { running := true, timeNanos := (tB : Int), appendOk := true, resubOk := true })]).2
      = ExitReason.endOfStream
    ∧ ((mqttLoggerRun serJson
        [(MqttEvent.publish topicA payloadA qA rA,
          { running := true, timeNanos := (tA : Int), appendOk := true, resubOk := true }),
         (MqttEvent.disconnect,
          { running := true, timeNanos := (tD : Int), appendOk := true, resubOk := true })]).1).count
      = ((mqttLoggerRun serJson
        [(MqttEvent.publish topicA payloadA qA rA,
          { running := true, timeNanos := (tA : Int), appendOk := true, resubOk := true })]).1).count
    ∧ ((mqttLoggerRun serJson
        [(MqttEvent.publish topicA payloadA qA rA,
          { running := true, timeNanos := (tA : Int), appendOk := true, resubOk := true }),
         (MqttEvent.disconnect,
          { running := true, timeNanos := (tD : Int), appendOk := true, resubOk := true })]).1).bytesWritten
      = ((mqttLoggerRun serJson
        [(MqttEvent.publish topicA payloadA qA rA,
          { running := true, timeNanos := (tA : Int), appendOk := true, resubOk := true })]).1).bytesWritten := by
  have hA : envelopeOfPublish ((tA : Int)) topicA payloadA qA rA
      = some (mkMqttMessage tA topicA payloadA qA rA) := by
    unfold envelopeOfPublish
    rw [if_neg (by omega)]
    rfl
  have hB : envelopeOfPublish ((tB : Int)) topicB payloadB qB rB
      = some (mkMqttMessage tB topicB payloadB qB rB) := by
    unfold envelopeOfPublish
    rw [if_neg (by omega)]
    rfl
  refine ⟨?_, ?_, ?_, ?_, ?_⟩ <;>
    simp [mqttLoggerRun, captureLoop, handleEvent, serJson, hA, hB, initialState,
      countA, countA_append]

/-- C9 (amended): for every successfully serialized record the capture
loop updates the counters, then emits the updated (message count, byte
estimate) pair to the progress collaborator, and only then appends the
record to the sink; the emission alters neither the state handed to the
sink nor the control flow, so it cannot fail the capture path.  The claim
as frozen places the emission after the append; the trace order below
(progressEmit immediately before sinkAppend) is what the source does
(main.rs:142-147). -/
theorem mqtt_C9_progress_emit_order (ser : MqttMessage → Option String)
    (topic : String) (payload : List Nat) (q : QoS) (retain : Bool) (env : StepEnv)
    (rest : List (MqttEvent × StepEnv)) (st : RunState) (s : String)
    (hrun : env.running = true) (hclock : ¬ env.timeNanos < 0)
    (hser : ser (mkMqttMessage env.timeNanos.toNat topic payload q retain) = some s)
    (happ : env.appendOk = true) :
    captureLoop ser ((MqttEvent.publish topic payload q retain, env) :: rest) st
      = captureLoop ser rest
          { count := st.count + 1
            bytesWritten := st.bytesWritten + (utf8Len s.data + 2)
            lines := st.lines ++ [s.data ++ ['\n']]
            trace := st.trace
              ++ [TraceAction.log LogLevel.trace,
                  TraceAction.progressEmit (st.count + 1) (st.bytesWritten + (utf8Len s.data + 2)),
                  TraceAction.sinkAppend (s.data ++ ['\n'])] } := by
  simp only [captureLoop]
  rw [if_neg (by simp [hrun])]
  simp only [handleEvent, envelopeOfPublish, if_neg hclock, hser, happ, if_pos]
  simp

theorem mqtt_C9_witness :
    captureLoop serJson [(MqttEvent.publish "a" [] QoS.atMostOnce false,
        { running := true, timeNanos := 0, appendOk := true, resubOk := true })] initialState
      = captureLoop serJson []
          { count := initialState.count + 1
            bytesWritten := initialState.bytesWritten
              + (utf8Len (String.mk (serializeRecordChars (mkMqttMessage 0 "a" [] QoS.atMostOnce false))).data + 2)
            lines := initialState.lines
              ++ [(String.mk (serializeRecordChars (mkMqttMessage 0 "a" [] QoS.atMostOnce false))).data ++ ['\n']]
            trace := initialState.trace
              ++ [TraceAction.log LogLevel.trace,
                  TraceAction.progressEmit (initialState.count + 1)
                    (initialState.bytesWritten
                      + (utf8Len (String.mk (serializeRecordChars (mkMqttMessage 0 "a" [] QoS.atMostOnce false))).data + 2)),
                  TraceAction.sinkAppend
                    ((String.mk (serializeRecordChars (mkMqttMessage 0 "a" [] QoS.atMostOnce false))).data ++ ['\n'])] } :=
  mqtt_C9_progress_emit_order serJson "a" [] QoS.atMostOnce false
    { running := true, timeNanos := 0, appendOk := true, resubOk := true }
    [] initialState (String.mk (serializeRecordChars (mkMqttMessage 0 "a" [] QoS.atMostOnce false)))
    rfl (by decide) rfl rfl

/-- Formalization of the order the claim C9 asserts: every progress
emission in the trace is preceded by some sink append. -/
def emitAfterAppend (tr : List TraceAction) : Prop :=
  ∀ (j c b : Nat), tr[j]? = some (TraceAction.progressEmit c b) →
    ∃ i l, i < j ∧ tr[i]? = some (TraceAction.sinkAppend l)

/-- C9 counterexample: in the run with one publish, the trace holds both a
progress emission and a sink append, but the emission is not preceded by
any append - it happens before the record reaches the sink - so the
claimed after-the-append ordering is false of the source. -/
theorem mqtt_C9_counterexample :
    ¬ emitAfterAppend ((mqttLoggerRun serJson [(MqttEvent.publish "a" [] QoS.atMostOnce false,
        { running := true, timeNanos := 0, appendOk := true, resubOk := true })]).1).trace
    ∧ (∃ c b, TraceAction.progressEmit c b ∈ ((mqttLoggerRun serJson
        [(MqttEvent.publish "a" [] QoS.atMostOnce false,
          { running := true, timeNanos := 0, appendOk := true, resubOk := true })]).1).trace)
    ∧ (∃ l, TraceAction.sinkAppend l ∈ ((mqttLoggerRun serJson
        [(MqttEvent.publish "a" [] QoS.atMostOnce false,
          { running := true, timeNanos := 0, appendOk := true, resubOk := true })]).1).trace) := by
  refine ⟨?_, ?_, ?_⟩
  · intro h
    rcases h 1 1 (utf8Len (serializeRecordChars (mkMqttMessage 0 "a" [] QoS.atMostOnce false)) + 2)
      (by decide) with ⟨i, l, hi, hl⟩
    have hi0 : i = 0 := by omega
    subst hi0
    have h0 : ((mqttLoggerRun serJson [(MqttEvent.publish "a" [] QoS.atMostOnce false,
        { running := true, timeNanos := 0, appendOk := true, resubOk := true })]).1).trace[0]?
        = some (TraceAction.log LogLevel.trace) := by decide
    rw [h0] at hl
    simp at hl
  · exact ⟨1, utf8Len (serializeRecordChars (mkMqttMessage 0 "a" [] QoS.atMostOnce false)) + 2,
      by decide⟩
  · exact ⟨serializeRecordChars (mkMqttMessage 0 "a" [] QoS.atMostOnce false) ++ ['\n'], by decide⟩
